import Mathlib

/-
Verification development for the tg_alarm_bot repository.

The Go sources are shallowly embedded:
  * lib/e/e.go                              -> eWrap
  * client/telegram (types used by events)  -> IncomingMessage, Update
  * events + events/telegram (cursor side)  -> EventType, Meta, Event,
      fetchType, fetchText, utoe, Processor.Fetch, Processor.initialOffset
  * consumer/event-consumer                 -> handleEvents, eventConsumerIteration
  * sources (types)                         -> Message
  * sources/telegram (window side)          -> Source, Source.New, messageTextOf,
      Source.cleanMessage, accepts, Source.filterFrom, Source.filter,
      Source.fetchOnce, Source.Fetch, sweepSeen
  * consumer/source-consumer                -> handleMessages, sourceConsumerIteration

External collaborators (HTTP transport, goquery HTML parsing, the Go regexp
engine, the RFC3339 time parser, the real clock) are modelled at their
interfaces: a fetch takes the already-retrieved/parsed data as an argument
(`Except` for fallible transport/parse), HTML candidates are `RawMessage`
records carrying the fields the code reads from the document, the compiled
regular expression is a `String -> Bool` matcher, parsed timestamps are
`Option Int` (seconds; `none` = attribute missing or unparsable), and the
clock is an explicit `now : Int` argument.
-/

set_option autoImplicit false

namespace TgAlarm

/-- Embedding of lib/e/e.go `Wrap`: errors are strings, wrapping is
"msg: err" concatenation. -/
def eWrap (msg err : String) : String :=
  msg ++ ": " ++ err

/-- Embedding of client/telegram `IncomingMessage` (the nested `From.Username`
and `Chat.ID` are flattened into the two fields the code reads). -/
structure IncomingMessage where
  Text : String
  FromUsername : String
  ChatID : Int
deriving DecidableEq, Repr

/-- Embedding of client/telegram `Update`: `update_id` plus an optional
incoming message (`nil` pointer = `none`). -/
structure Update where
  ID : Int
  Message : Option IncomingMessage
deriving DecidableEq, Repr

/-- Embedding of events `Type` (named `EventType` because `Type` is reserved
in Lean). -/
inductive EventType
  | Unknown
  | Message
deriving DecidableEq, Repr

/-- Embedding of events/telegram `Meta`. -/
structure Meta where
  ChatID : Int
  Username : String
deriving DecidableEq, Repr

/-- Embedding of events `Event`. The Go fields `Type` and `Meta` are named
`EvType` and `EvMeta` here; the dynamically typed `Meta interface` field
only ever holds a `Meta` value or nothing, hence `Option Meta`. -/
structure Event where
  EvType : EventType
  Text : String
  EvMeta : Option Meta
deriving DecidableEq, Repr

/-- Embedding of events/telegram `fetchType`. -/
def fetchType (u : Update) : EventType :=
  match u.Message with
  | none => EventType.Unknown
  | some _ => EventType.Message

/-- Embedding of events/telegram `fetchText`. -/
def fetchText (u : Update) : String :=
  match u.Message with
  | none => ""
  | some m => m.Text

/-- Embedding of events/telegram `utoe`: the meta field is set exactly when
the update carries a message (i.e. when `fetchType` yields `Message`). -/
def utoe (u : Update) : Event :=
  match u.Message with
  | none => { EvType := fetchType u, Text := fetchText u, EvMeta := none }
  | some m =>
      { EvType := fetchType u
        Text := fetchText u
        EvMeta := some { ChatID := m.ChatID, Username := m.FromUsername } }

/-- The offset of a freshly constructed events/telegram `Processor`:
`New` only sets the client, so the Go zero value 0 is kept. -/
def Processor.initialOffset : Int := 0

/-- `lastUpdateID u us` is `updates[len(updates)-1].ID` for the non-empty
update slice `u :: us`. -/
def lastUpdateID (u : Update) : List Update → Int
  | [] => u.ID
  | v :: vs => lastUpdateID v vs

/-- Maximum update ID of the non-empty slice `u :: us` (used to state the
spec-side "max(item.ID) + 1" cursor rule). -/
def maxUpdateID (u : Update) (us : List Update) : Int :=
  List.foldl (fun a v => max a v.ID) u.ID us

/-- Embedding of events/telegram `Processor.Fetch`. The Telegram call
`p.tg.Updates(p.offset, limit)` is modelled by its result
(`updatesResult`); the function returns the produced events together with
the new offset (the mutated `p.offset`). On transport/decode error the
wrapped error is returned and the offset is unchanged; on an empty update
slice `nil, nil` is returned and the offset is unchanged; otherwise the
events are the updates mapped through `utoe` and the offset becomes
`updates[len(updates)-1].ID + 1`. -/
def Processor.Fetch (offset : Int) (updatesResult : Except String (List Update)) :
    Except String (List Event) × Int :=
  match updatesResult with
  | Except.error err => (Except.error (eWrap "cant get events" err), offset)
  | Except.ok [] => (Except.ok [], offset)
  | Except.ok (u :: us) => (Except.ok (List.map utoe (u :: us)), lastUpdateID u us + 1)

/-- Embedding of consumer/event-consumer `handleEvents`: dispatches every
event in order to the process capability; a failing event contributes a
log line and processing continues with the next event. Returns the list
of dispatched events (in dispatch order) and the logged error lines.
(The Go function always returns a nil error.) -/
def handleEvents (p : Event → Except String Unit) : List Event → List Event × List String
  | [] => ([], [])
  | ev :: rest =>
      let r := handleEvents p rest
      match p ev with
      | Except.ok _ => (ev :: r.1, r.2)
      | Except.error err => (ev :: r.1, ("cant handle event: " ++ err) :: r.2)

/-- Outcome of a single iteration of a poll loop (`Start`): the fetch
failed (logged, immediate retry), the loop slept for `n` seconds on an
empty result, or `n` items were dispatched. -/
inductive LoopOutcome
  | fetchFailed
  | sleptSeconds (n : Nat)
  | dispatchedCount (n : Nat)
deriving DecidableEq, Repr

/-- One iteration of consumer/event-consumer `Consumer.Start`, applied to
the fetch result of that iteration: error -> log and retry immediately,
empty -> sleep 1 second, otherwise dispatch the whole batch. -/
def eventConsumerIteration (fr : Except String (List Event)) : LoopOutcome :=
  match fr with
  | Except.error _ => LoopOutcome.fetchFailed
  | Except.ok [] => LoopOutcome.sleptSeconds 1
  | Except.ok evs => LoopOutcome.dispatchedCount evs.length

/-- Embedding of sources `Message`. -/
structure Message where
  ID : String
  Text : String
deriving DecidableEq, Repr

/-- Go `unicode.IsSpace` on the Unicode White_Space code points (used by
`strings.TrimSpace`). -/
def isWhiteSpace (c : Char) : Bool :=
  (9 ≤ c.val && c.val ≤ 13) || c.val == 32 || c.val == 0x85 || c.val == 0xA0 ||
  c.val == 0x1680 || (0x2000 ≤ c.val && c.val ≤ 0x200A) || c.val == 0x2028 ||
  c.val == 0x2029 || c.val == 0x202F || c.val == 0x205F || c.val == 0x3000

/-- Go `strings.TrimSpace`: drop leading and trailing white space. -/
def goTrimSpace (text : String) : String :=
  String.mk (List.reverse (List.dropWhile isWhiteSpace
    (List.reverse (List.dropWhile isWhiteSpace text.data))))

/-- Worker for `removeAllStr`: left-to-right, non-overlapping removal of
`pat`, with a fuel argument (one unit per character examined, so
`text.length` fuel is always enough). An empty pattern removes nothing,
as in Go `strings.ReplaceAll` with an empty replacement. -/
def removeAllAux (pat : List Char) : Nat → List Char → List Char
  | _, [] => []
  | 0, l => l
  | Nat.succ fuel, c :: rest =>
      if !pat.isEmpty && List.isPrefixOf pat (c :: rest) then
        removeAllAux pat fuel (List.drop pat.length (c :: rest))
      else
        c :: removeAllAux pat fuel rest

/-- Go `strings.ReplaceAll(text, pat, "")`. On valid UTF-8 the byte-level
scan of Go coincides with this character-level scan, because a valid
encoded pattern can only match at rune boundaries. -/
def removeAllStr (text pat : String) : String :=
  String.mk (removeAllAux pat.data text.data.length text.data)

/-- Go `utf8.RuneCountInString`: the number of Unicode code points. A Lean
`String` is a list of scalar values, so this is the length of its
character data. -/
def runeCountInString (s : String) : Nat :=
  s.data.length

/-- UTF-8 encoded byte length of a string (for contrast with
`runeCountInString`; the Go code never uses the byte length). -/
def utf8ByteLen (s : String) : Nat :=
  List.foldl (fun n c => n + c.utf8Size) 0 s.data

/-- Substring search on character lists: does `pat` occur contiguously in
the list? -/
def hasSubstr (pat : List Char) : List Char → Bool
  | [] => pat.isEmpty
  | c :: rest => List.isPrefixOf pat (c :: rest) || hasSubstr pat rest

/-- `strContains text pat`: does `pat` occur in `text`? This is the
behaviour of the Go regexp match for a pattern containing no
metacharacters, used to instantiate concrete matchers. -/
def strContains (text pat : String) : Bool :=
  hasSubstr pat.data text.data

/-- The `seen` map of a `Source` (`map[string]time.Time`), embedded as an
association list from message ID to the acceptance timestamp (seconds). -/
abbrev Seen := List (String × Int)

/-- Map lookup `s.seen[id]` (with the `, ok` flavour given by `Option`). -/
def lookupSeen : Seen → String → Option Int
  | [], _ => none
  | p :: rest, id => if p.1 = id then some p.2 else lookupSeen rest id

/-- Removal of a key from the association list (a Go map holds one binding
per key, so an insert replaces any previous binding). -/
def eraseKey (k : String) : Seen → Seen
  | [] => []
  | p :: rest => if p.1 = k then eraseKey k rest else p :: eraseKey k rest

/-- Map insert `s.seen[k] = v`: the key is bound to `v` and any previous
binding disappears. -/
def insertSeen (m : Seen) (k : String) (v : Int) : Seen :=
  (k, v) :: eraseKey k m

/-- The sweep at the end of sources/telegram `Source.Fetch`: delete every
entry with `time.Since(timestamp) > expiry`, i.e. keep exactly the entries
with `now - timestamp ≤ expiry`. -/
def sweepSeen (expiry now : Int) : Seen → Seen
  | [] => []
  | p :: rest =>
      if now - p.2 > expiry then sweepSeen expiry now rest
      else p :: sweepSeen expiry now rest

/-- Well-formedness of the embedded map: keys are pairwise distinct (true
of any map reachable from `make(map[string]time.Time)`). -/
def SeenWF (m : Seen) : Prop :=
  (List.map Prod.fst m).Nodup

/-- Embedding of sources/telegram `Source` (the configuration part; the
mutable `seen` map is threaded explicitly through the fetch functions).
The compiled regular expression `regexp.MustCompile(SearchRegexp)` is
modelled by its matcher `searchMatch : String -> Bool`. -/
structure Source where
  Name : String
  URL : String
  searchMatch : String → Bool
  PhrasesToRemove : List String
  ToChannel : Int
  expiry : Int
  startTime : Int

/-- Embedding of sources/telegram `New`: builds the `Source` with a 24 hour
(86400 second) expiry and an empty `seen` map (returned alongside). -/
def Source.New (name url : String) (searchMatch : String → Bool)
    (phrases : List String) (toChannel : Int) (startTime : Int) : Source × Seen :=
  ({ Name := name
     URL := url
     searchMatch := searchMatch
     PhrasesToRemove := phrases
     ToChannel := toChannel
     expiry := 86400
     startTime := startTime }, [])

/-- One candidate element matched by `doc.Find(".tgme_widget_message")`,
carrying exactly the data the filter reads from the document: the
`data-post` attribute (empty when absent, as `sel.Attr` yields ""), the
text of the first `.tgme_widget_message_text` node, whether a
`.tgme_widget_message_reply` block is present and, if so, the text that
`replyBlock.Next().Find(".tgme_widget_message_text").Text()` yields, and
the parsed `datetime` attribute (`none` when missing or unparsable). -/
structure RawMessage where
  dataPost : String
  ownText : String
  hasReply : Bool
  replyText : String
  datetime : Option Int
deriving DecidableEq, Repr

/-- The reply-resolved message text of a candidate (lines 97-102 of
sources/telegram/telegram.go). -/
def messageTextOf (c : RawMessage) : String :=
  if c.hasReply then c.replyText else c.ownText

/-- Embedding of sources/telegram `Source.cleanMessage`: remove every
configured phrase in order, then trim surrounding white space. -/
def Source.cleanMessage (s : Source) (text : String) : String :=
  goTrimSpace (List.foldl (fun t phrase => removeAllStr t phrase) text s.PhrasesToRemove)

/-- The acceptance decision of `Source.filter` for one candidate
(lines 104-123): discard when the timestamp is missing/unparsable or
before the start time; otherwise require the regexp to match the
reply-resolved text and the rune count to be strictly below 150; finally
require the ID to be new or its seen entry to be older than the expiry. -/
def accepts (s : Source) (now : Int) (seen : Seen) (c : RawMessage) : Bool :=
  match c.datetime with
  | none => false
  | some t =>
      if t < s.startTime then false
      else if s.searchMatch (messageTextOf c)
              && decide (runeCountInString (messageTextOf c) < 150) then
        match lookupSeen seen c.dataPost with
        | none => true
        | some ts => decide (now - ts > s.expiry)
      else false

/-- The `Each` loop of sources/telegram `Source.filter`, processing the
candidates in document order: an accepted candidate records its ID in the
seen map at `now` and appends the cleaned message; every other candidate
leaves the state untouched. -/
def Source.filterFrom (s : Source) (now : Int) :
    Seen → List Message → List RawMessage → Seen × List Message
  | seen, acc, [] => (seen, acc)
  | seen, acc, c :: rest =>
      if accepts s now seen c then
        Source.filterFrom s now (insertSeen seen c.dataPost now)
          (acc ++ [{ ID := c.dataPost, Text := Source.cleanMessage s (messageTextOf c) }]) rest
      else
        Source.filterFrom s now seen acc rest

/-- Embedding of sources/telegram `Source.filter` applied to the parsed
candidate list of the document: returns the updated seen map and the
accepted messages in document order. -/
def Source.filter (s : Source) (now : Int) (seen : Seen) (doc : List RawMessage) :
    Seen × List Message :=
  Source.filterFrom s now seen [] doc

/-- The success path of sources/telegram `Source.Fetch`: filter the
document, then sweep expired entries out of the seen map. -/
def Source.fetchOnce (s : Source) (now : Int) (seen : Seen) (doc : List RawMessage) :
    Seen × List Message :=
  let r := Source.filter s now seen doc
  (sweepSeen s.expiry now r.1, r.2)

/-- Embedding of sources/telegram `Source.Fetch`. The HTTP GET and the
goquery parse are modelled by their combined result `body`; on error the
wrapped error is returned and the seen map is untouched (the Go code
returns before the filter and the sweep run). -/
def Source.Fetch (s : Source) (now : Int) (seen : Seen)
    (body : Except String (List RawMessage)) : Seen × Except String (List Message) :=
  match body with
  | Except.error err =>
      (seen, Except.error (eWrap "cant fetch data from telegram source" err))
  | Except.ok doc =>
      let r := Source.fetchOnce s now seen doc
      (r.1, Except.ok r.2)

/-- A sequence of successful window-consumer fetches: each list element is
the fetch time together with the parsed candidates of that retrieval; the
result is the per-fetch message batches, threading the seen map. -/
def runWindow (s : Source) : Seen → List (Int × List RawMessage) → List (List Message)
  | _, [] => []
  | seen, f :: rest =>
      let r := Source.fetchOnce s f.1 seen f.2
      r.2 :: runWindow s r.1 rest

/-- Embedding of consumer/source-consumer `handleMessages`: dispatches
every message in order to the process capability; a failure is logged and
processing continues. Returns the dispatched messages and the logged
error lines. (The Go function always returns a nil error.) -/
def handleMessages (p : Message → Except String Unit) :
    List Message → List Message × List String
  | [] => ([], [])
  | msg :: rest =>
      let r := handleMessages p rest
      match p msg with
      | Except.ok _ => (msg :: r.1, r.2)
      | Except.error err => (msg :: r.1, ("cant handle message: " ++ err) :: r.2)

/-- One iteration of consumer/source-consumer `Consumer.Start`: error ->
log and retry immediately, empty -> sleep 10 seconds, otherwise dispatch
the whole batch. -/
def sourceConsumerIteration (fr : Except String (List Message)) : LoopOutcome :=
  match fr with
  | Except.error _ => LoopOutcome.fetchFailed
  | Except.ok [] => LoopOutcome.sleptSeconds 10
  | Except.ok msgs => LoopOutcome.dispatchedCount msgs.length

/-- Is the processing result an error? (Used to count logged failures.) -/
def isError : Except String Unit → Bool
  | Except.error _ => true
  | Except.ok _ => false

/-- Concrete source (matcher never fires) for exercising empty fetches. -/
def srcC2 : Source := (Source.New "n" "u" (fun _ => false) [] 7 0).1

/-- Concrete source with an always-true matcher. -/
def srcC3 : Source := (Source.New "n" "u" (fun _ => true) [] 7 0).1

/-- Concrete candidate with a valid timestamp after the start time. -/
def candC3 : RawMessage :=
  { dataPost := "p1", ownText := "alert", hasReply := false, replyText := "", datetime := some 10 }

/-- Concrete source with an always-true matcher. -/
def srcC5 : Source := (Source.New "n" "u" (fun _ => true) [] 7 0).1

/-- A 149-character string of two-byte characters (298 UTF-8 bytes). -/
def strC5a : String := String.mk (List.replicate 149 'é')

/-- A 150-character string of two-byte characters. -/
def strC5b : String := String.mk (List.replicate 150 'é')

/-- Candidate carrying the 149-character text. -/
def candC5a : RawMessage :=
  { dataPost := "m1", ownText := strC5a, hasReply := false, replyText := "", datetime := some 5 }

/-- Candidate carrying the 150-character text. -/
def candC5b : RawMessage :=
  { dataPost := "m2", ownText := strC5b, hasReply := false, replyText := "", datetime := some 5 }

/-- Concrete source with pattern "ALERT" (a literal regexp, i.e. substring
search) and strip-phrase "[AD] ". -/
def srcC6 : Source :=
  (Source.New "n" "u" (fun text => strContains text "ALERT") ["[AD] "] 7 0).1

/-- Concrete candidate whose raw text is "[AD] ALERT: fire". -/
def candC6 : RawMessage :=
  { dataPost := "p6", ownText := "[AD] ALERT: fire", hasReply := false, replyText := "", datetime := some 3 }

/-- Concrete candidate carrying a reply block, whose resolved text is the
reply text. -/
def candC6r : RawMessage :=
  { dataPost := "p", ownText := "own", hasReply := true, replyText := "resolved", datetime := some 1 }

/-- Concrete source with an always-true matcher. -/
def srcC7 : Source := (Source.New "n" "u" (fun _ => true) [] 7 0).1

/-- Concrete source with an always-true matcher. -/
def srcC8 : Source := (Source.New "n" "u" (fun _ => true) [] 7 0).1

/-- Concrete candidate whose timestamp precedes the start time. -/
def candC8 : RawMessage :=
  { dataPost := "x", ownText := "a", hasReply := false, replyText := "", datetime := some (-5) }

/-- Concrete source with an always-true matcher. -/
def srcC10 : Source := (Source.New "n" "u" (fun _ => true) [] 7 0).1

/-- Concrete candidate used twice in one document. -/
def candC10 : RawMessage :=
  { dataPost := "d1", ownText := "dup", hasReply := false, replyText := "", datetime := some 2 }

end TgAlarm

namespace TgAlarm

set_option maxRecDepth 8000

theorem lookupSeen_insertSeen_self (m : Seen) (k : String) (v : Int) :
    lookupSeen (insertSeen m k v) k = some v := by
  simp [insertSeen, lookupSeen]

theorem lookupSeen_eraseKey_of_ne (k id : String) (h : id ≠ k) :
    ∀ m : Seen, lookupSeen (eraseKey k m) id = lookupSeen m id := by
  intro m
  induction m with
  | nil => rfl
  | cons p rest ih =>
      by_cases hpk : p.1 = k
      · have hpid : p.1 ≠ id := by rw [hpk]; exact fun hh => h hh.symm
        simp only [eraseKey, lookupSeen]
        rw [if_pos hpk, if_neg hpid]
        exact ih
      · simp only [eraseKey, lookupSeen]
        rw [if_neg hpk]
        by_cases hpid : p.1 = id
        · simp only [lookupSeen, if_pos hpid]
        · simp only [lookupSeen, if_neg hpid]
          exact ih

theorem lookupSeen_insertSeen_of_ne (m : Seen) (k id : String) (v : Int) (h : id ≠ k) :
    lookupSeen (insertSeen m k v) id = lookupSeen m id := by
  have hk : k ≠ id := fun hh => h hh.symm
  simp only [insertSeen, lookupSeen]
  rw [if_neg hk]
  exact lookupSeen_eraseKey_of_ne k id h m

theorem lookupSeen_sweepSeen_of_young (expiry now : Int) (id : String) (T : Int)
    (hy : now - T ≤ expiry) :
    ∀ m : Seen, lookupSeen m id = some T →
      lookupSeen (sweepSeen expiry now m) id = some T := by
  intro m
  induction m with
  | nil => intro hl; cases hl
  | cons p rest ih =>
      intro hl
      simp only [lookupSeen] at hl
      by_cases hp : p.1 = id
      · rw [if_pos hp] at hl
        have hpT : p.2 = T := Option.some.inj hl
        simp only [sweepSeen]
        rw [if_neg (by omega : ¬ now - p.2 > expiry)]
        simp only [lookupSeen]
        rw [if_pos hp, hpT]
      · rw [if_neg hp] at hl
        simp only [sweepSeen]
        by_cases hq : now - p.2 > expiry
        · rw [if_pos hq]
          exact ih hl
        · rw [if_neg hq]
          simp only [lookupSeen]
          rw [if_neg hp]
          exact ih hl

theorem lookupSeen_sweepSeen_none (expiry now : Int) (id : String) :
    ∀ m : Seen, lookupSeen m id = none →
      lookupSeen (sweepSeen expiry now m) id = none := by
  intro m
  induction m with
  | nil => intro _; rfl
  | cons p rest ih =>
      intro hl
      simp only [lookupSeen] at hl
      by_cases hp : p.1 = id
      · rw [if_pos hp] at hl; cases hl
      · rw [if_neg hp] at hl
        simp only [sweepSeen]
        by_cases hq : now - p.2 > expiry
        · rw [if_pos hq]; exact ih hl
        · rw [if_neg hq]
          simp only [lookupSeen]
          rw [if_neg hp]
          exact ih hl

theorem lookupSeen_eq_none_of_not_mem (id : String) :
    ∀ m : Seen, id ∉ List.map Prod.fst m → lookupSeen m id = none := by
  intro m
  induction m with
  | nil => intro _; rfl
  | cons p rest ih =>
      intro h
      simp only [List.map_cons, List.mem_cons] at h
      push_neg at h
      have hp : p.1 ≠ id := fun hh => h.1 hh.symm
      simp only [lookupSeen]
      rw [if_neg hp]
      exact ih h.2

theorem lookupSeen_sweepSeen_eq (expiry now : Int) (id : String) :
    ∀ m : Seen, SeenWF m →
      lookupSeen (sweepSeen expiry now m) id =
        match lookupSeen m id with
        | none => none
        | some T => if now - T > expiry then none else some T := by
  intro m
  induction m with
  | nil => intro _; rfl
  | cons p rest ih =>
      intro hw
      simp only [SeenWF, List.map_cons, List.nodup_cons] at hw
      have hpnot : p.1 ∉ List.map Prod.fst rest := hw.1
      have hw1 : SeenWF rest := hw.2
      by_cases hp : p.1 = id
      · have hrest : lookupSeen rest id = none :=
          lookupSeen_eq_none_of_not_mem id rest (hp ▸ hpnot)
        by_cases hq : now - p.2 > expiry
        · simp only [sweepSeen]
          rw [if_pos hq]
          simp only [lookupSeen]
          rw [if_pos hp]
          show _ = if now - p.2 > expiry then none else some p.2
          rw [if_pos hq]
          exact lookupSeen_sweepSeen_none expiry now id rest hrest
        · simp only [sweepSeen]
          rw [if_neg hq]
          simp only [lookupSeen]
          rw [if_pos hp, if_pos hp]
          show _ = if now - p.2 > expiry then none else some p.2
          rw [if_neg hq]
      · by_cases hq : now - p.2 > expiry
        · simp only [sweepSeen]
          rw [if_pos hq]
          simp only [lookupSeen]
          rw [if_neg hp]
          exact ih hw1
        · simp only [sweepSeen]
          rw [if_neg hq]
          simp only [lookupSeen]
          rw [if_neg hp, if_neg hp]
          exact ih hw1

theorem keys_eraseKey_sublist (k : String) :
    ∀ m : Seen, List.Sublist (List.map Prod.fst (eraseKey k m)) (List.map Prod.fst m) := by
  intro m
  induction m with
  | nil => exact List.Sublist.refl []
  | cons p rest ih =>
      simp only [eraseKey]
      by_cases hpk : p.1 = k
      · rw [if_pos hpk]
        exact List.Sublist.cons p.1 ih
      · rw [if_neg hpk]
        simp only [List.map_cons]
        exact List.Sublist.cons₂ p.1 ih

theorem keys_sweepSeen_sublist (expiry now : Int) :
    ∀ m : Seen, List.Sublist (List.map Prod.fst (sweepSeen expiry now m)) (List.map Prod.fst m) := by
  intro m
  induction m with
  | nil => exact List.Sublist.refl []
  | cons p rest ih =>
      simp only [sweepSeen]
      by_cases hq : now - p.2 > expiry
      · rw [if_pos hq]
        exact List.Sublist.cons p.1 ih
      · rw [if_neg hq]
        simp only [List.map_cons]
        exact List.Sublist.cons₂ p.1 ih

theorem not_mem_keys_eraseKey (k : String) :
    ∀ m : Seen, k ∉ List.map Prod.fst (eraseKey k m) := by
  intro m
  induction m with
  | nil => simp [eraseKey]
  | cons p rest ih =>
      simp only [eraseKey]
      by_cases hpk : p.1 = k
      · rw [if_pos hpk]
        exact ih
      · rw [if_neg hpk]
        simp only [List.map_cons, List.mem_cons]
        rintro (hh | hh)
        · exact hpk hh.symm
        · exact ih hh

theorem SeenWF_eraseKey (k : String) (m : Seen) (hw : SeenWF m) : SeenWF (eraseKey k m) :=
  List.Nodup.sublist (keys_eraseKey_sublist k m) hw

theorem SeenWF_insertSeen (m : Seen) (k : String) (v : Int) (hw : SeenWF m) :
    SeenWF (insertSeen m k v) := by
  simp only [insertSeen, SeenWF, List.map_cons, List.nodup_cons]
  exact ⟨not_mem_keys_eraseKey k m, SeenWF_eraseKey k m hw⟩

theorem SeenWF_sweepSeen (expiry now : Int) (m : Seen) (hw : SeenWF m) :
    SeenWF (sweepSeen expiry now m) :=
  List.Nodup.sublist (keys_sweepSeen_sublist expiry now m) hw

end TgAlarm

namespace TgAlarm

theorem filterFrom_nil (s : Source) (now : Int) (seen : Seen) (acc : List Message) :
    Source.filterFrom s now seen acc [] = (seen, acc) := rfl

theorem filterFrom_cons_pos (s : Source) (now : Int) (seen : Seen) (acc : List Message)
    (c : RawMessage) (rest : List RawMessage) (h : accepts s now seen c = true) :
    Source.filterFrom s now seen acc (c :: rest) =
      Source.filterFrom s now (insertSeen seen c.dataPost now)
        (acc ++ [{ ID := c.dataPost, Text := Source.cleanMessage s (messageTextOf c) }]) rest := by
  simp only [Source.filterFrom, h, if_true]

theorem filterFrom_cons_neg (s : Source) (now : Int) (seen : Seen) (acc : List Message)
    (c : RawMessage) (rest : List RawMessage) (h : accepts s now seen c = false) :
    Source.filterFrom s now seen acc (c :: rest) = Source.filterFrom s now seen acc rest := by
  simp only [Source.filterFrom, h, if_false, Bool.false_eq_true]

theorem accepts_false_of_blocked (s : Source) (now : Int) (seen : Seen) (c : RawMessage)
    (T : Int) (hl : lookupSeen seen c.dataPost = some T) (hy : now - T ≤ s.expiry) :
    accepts s now seen c = false := by
  unfold accepts
  cases hdt : c.datetime with
  | none => rfl
  | some t =>
      by_cases hst : t < s.startTime
      · simp [hst]
      · cases hm : (s.searchMatch (messageTextOf c)
            && decide (runeCountInString (messageTextOf c) < 150)) with
        | false => simp [hst, hm]
        | true =>
            simp only [hst, if_false, hm, if_true, hl]
            simp only [decide_eq_false_iff_not]
            omega

theorem accepts_time_of_true (s : Source) (now : Int) (seen : Seen) (c : RawMessage)
    (h : accepts s now seen c = true) :
    ∃ t, c.datetime = some t ∧ ¬ t < s.startTime := by
  unfold accepts at h
  cases hdt : c.datetime with
  | none => rw [hdt] at h; cases h
  | some t =>
      rw [hdt] at h
      by_cases hst : t < s.startTime
      · simp [hst] at h
      · exact ⟨t, rfl, hst⟩

theorem filterFrom_blocked (s : Source) (now : Int) (id : String) (T : Int)
    (hy : now - T ≤ s.expiry) :
    ∀ (doc : List RawMessage) (seen : Seen) (acc : List Message),
      lookupSeen seen id = some T → id ∉ List.map Message.ID acc →
      lookupSeen (Source.filterFrom s now seen acc doc).1 id = some T ∧
        id ∉ List.map Message.ID (Source.filterFrom s now seen acc doc).2 := by
  intro doc
  induction doc with
  | nil =>
      intro seen acc hl hacc
      rw [filterFrom_nil]
      exact ⟨hl, hacc⟩
  | cons c rest ih =>
      intro seen acc hl hacc
      cases hc : accepts s now seen c with
      | false =>
          rw [filterFrom_cons_neg s now seen acc c rest hc]
          exact ih seen acc hl hacc
      | true =>
          have hne : c.dataPost ≠ id := by
            intro hh
            have hlc : lookupSeen seen c.dataPost = some T := by rw [hh]; exact hl
            rw [accepts_false_of_blocked s now seen c T hlc hy] at hc
            cases hc
          rw [filterFrom_cons_pos s now seen acc c rest hc]
          apply ih
          · rw [lookupSeen_insertSeen_of_ne seen c.dataPost id now (Ne.symm hne)]
            exact hl
          · simp only [List.map_append, List.map_cons, List.map_nil, List.mem_append,
              List.mem_singleton]
            rintro (h1 | h1)
            · exact hacc h1
            · exact hne h1.symm

theorem filterFrom_records (s : Source) (now : Int) (id : String) :
    ∀ (doc : List RawMessage) (seen : Seen) (acc : List Message),
      (id ∈ List.map Message.ID acc → lookupSeen seen id = some now) →
      id ∈ List.map Message.ID (Source.filterFrom s now seen acc doc).2 →
      lookupSeen (Source.filterFrom s now seen acc doc).1 id = some now := by
  intro doc
  induction doc with
  | nil =>
      intro seen acc hinv hmem
      rw [filterFrom_nil] at hmem ⊢
      exact hinv hmem
  | cons c rest ih =>
      intro seen acc hinv hmem
      cases hc : accepts s now seen c with
      | false =>
          rw [filterFrom_cons_neg s now seen acc c rest hc] at hmem ⊢
          exact ih seen acc hinv hmem
      | true =>
          rw [filterFrom_cons_pos s now seen acc c rest hc] at hmem ⊢
          apply ih _ _ _ hmem
          intro hmem2
          by_cases hid : c.dataPost = id
          · rw [← hid]
            exact lookupSeen_insertSeen_self seen c.dataPost now
          · rw [lookupSeen_insertSeen_of_ne seen c.dataPost id now (fun hh => hid hh.symm)]
            apply hinv
            simp only [List.map_append, List.map_cons, List.map_nil, List.mem_append,
              List.mem_singleton] at hmem2
            rcases hmem2 with h1 | h1
            · exact h1
            · exact absurd h1.symm hid

theorem filterFrom_acc_sublist (s : Source) (now : Int) :
    ∀ (doc : List RawMessage) (seen : Seen) (acc : List Message),
      List.Sublist acc (Source.filterFrom s now seen acc doc).2 := by
  intro doc
  induction doc with
  | nil =>
      intro seen acc
      rw [filterFrom_nil]
  | cons c rest ih =>
      intro seen acc
      cases hc : accepts s now seen c with
      | false =>
          rw [filterFrom_cons_neg s now seen acc c rest hc]
          exact ih seen acc
      | true =>
          rw [filterFrom_cons_pos s now seen acc c rest hc]
          exact List.Sublist.trans (List.sublist_append_left acc _) (ih _ _)

theorem filterFrom_seen_of_no_new (s : Source) (now : Int) :
    ∀ (doc : List RawMessage) (seen : Seen) (acc : List Message),
      (Source.filterFrom s now seen acc doc).2 = acc →
      (Source.filterFrom s now seen acc doc).1 = seen := by
  intro doc
  induction doc with
  | nil =>
      intro seen acc _
      rw [filterFrom_nil]
  | cons c rest ih =>
      intro seen acc h
      cases hc : accepts s now seen c with
      | false =>
          rw [filterFrom_cons_neg s now seen acc c rest hc] at h ⊢
          exact ih seen acc h
      | true =>
          exfalso
          rw [filterFrom_cons_pos s now seen acc c rest hc] at h
          have hsub := filterFrom_acc_sublist s now rest (insertSeen seen c.dataPost now)
            (acc ++ [{ ID := c.dataPost, Text := Source.cleanMessage s (messageTextOf c) }])
          have hlen := List.Sublist.length_le hsub
          rw [h] at hlen
          simp only [List.length_append, List.length_cons, List.length_nil] at hlen
          omega

theorem filterFrom_ids_nodup (s : Source) (now : Int) (hexp : 0 ≤ s.expiry) :
    ∀ (doc : List RawMessage) (seen : Seen) (acc : List Message),
      (List.map Message.ID acc).Nodup →
      (∀ id ∈ List.map Message.ID acc, lookupSeen seen id = some now) →
      (List.map Message.ID (Source.filterFrom s now seen acc doc).2).Nodup := by
  intro doc
  induction doc with
  | nil =>
      intro seen acc h1 _
      rw [filterFrom_nil]
      exact h1
  | cons c rest ih =>
      intro seen acc h1 h2
      cases hc : accepts s now seen c with
      | false =>
          rw [filterFrom_cons_neg s now seen acc c rest hc]
          exact ih seen acc h1 h2
      | true =>
          rw [filterFrom_cons_pos s now seen acc c rest hc]
          have hnew : c.dataPost ∉ List.map Message.ID acc := by
            intro hmem
            have hlc := h2 c.dataPost hmem
            rw [accepts_false_of_blocked s now seen c now hlc (by omega)] at hc
            cases hc
          apply ih
          · simp only [List.map_append, List.map_cons, List.map_nil]
            rw [List.nodup_append]
            refine ⟨h1, List.nodup_singleton _, ?_⟩
            intro a ha hb
            simp only [List.mem_singleton] at hb
            rw [hb] at ha
            exact hnew ha
          · intro id hid
            simp only [List.map_append, List.map_cons, List.map_nil, List.mem_append,
              List.mem_singleton] at hid
            rcases hid with h3 | h3
            · by_cases h4 : id = c.dataPost
              · rw [h4]
                exact lookupSeen_insertSeen_self seen c.dataPost now
              · rw [lookupSeen_insertSeen_of_ne seen c.dataPost id now h4]
                exact h2 id h3
            · rw [h3]
              exact lookupSeen_insertSeen_self seen c.dataPost now

theorem filterFrom_ids_time_valid (s : Source) (now : Int) (id : String) :
    ∀ (doc : List RawMessage) (seen : Seen) (acc : List Message),
      id ∈ List.map Message.ID (Source.filterFrom s now seen acc doc).2 →
      id ∈ List.map Message.ID acc ∨
        ∃ c ∈ doc, c.dataPost = id ∧ ∃ t, c.datetime = some t ∧ ¬ t < s.startTime := by
  intro doc
  induction doc with
  | nil =>
      intro seen acc hmem
      rw [filterFrom_nil] at hmem
      exact Or.inl hmem
  | cons c rest ih =>
      intro seen acc hmem
      cases hc : accepts s now seen c with
      | false =>
          rw [filterFrom_cons_neg s now seen acc c rest hc] at hmem
          rcases ih seen acc hmem with h1 | ⟨d, hd, hrest⟩
          · exact Or.inl h1
          · exact Or.inr ⟨d, List.mem_cons_of_mem c hd, hrest⟩
      | true =>
          rw [filterFrom_cons_pos s now seen acc c rest hc] at hmem
          rcases ih _ _ hmem with h1 | ⟨d, hd, hrest⟩
          · simp only [List.map_append, List.map_cons, List.map_nil, List.mem_append,
              List.mem_singleton] at h1
            rcases h1 with h2 | h2
            · exact Or.inl h2
            · rcases accepts_time_of_true s now seen c hc with ⟨t, hdt, hst⟩
              exact Or.inr ⟨c, List.mem_cons_self c rest, h2.symm, t, hdt, hst⟩
          · exact Or.inr ⟨d, List.mem_cons_of_mem c hd, hrest⟩

end TgAlarm

namespace TgAlarm

theorem lastUpdateID_eq_max :
    ∀ (us : List Update) (u : Update), List.Chain' (fun a b => a.ID ≤ b.ID) (u :: us) →
      lastUpdateID u us = maxUpdateID u us := by
  intro us
  induction us with
  | nil => intro u _; rfl
  | cons v vs ih =>
      intro u hch
      have h1 : u.ID ≤ v.ID := (List.chain'_cons.1 hch).1
      have h2 : List.Chain' (fun a b => a.ID ≤ b.ID) (v :: vs) := (List.chain'_cons.1 hch).2
      calc lastUpdateID u (v :: vs) = lastUpdateID v vs := rfl
        _ = maxUpdateID v vs := ih v h2
        _ = maxUpdateID u (v :: vs) := by
              simp [maxUpdateID, List.foldl_cons, max_eq_right h1]

theorem lastUpdateID_mem :
    ∀ (us : List Update) (u : Update), ∃ v ∈ u :: us, lastUpdateID u us = v.ID := by
  intro us
  induction us with
  | nil => intro u; exact ⟨u, List.mem_singleton.2 rfl, rfl⟩
  | cons v vs ih =>
      intro u
      rcases ih v with ⟨w, hw, hid⟩
      exact ⟨w, List.mem_cons_of_mem u hw, hid⟩

/-- Claim C1 (corrected). After a successful cursor-consumer fetch that
returns at least one item, the cursor equals one plus the identifier of
the LAST returned item; when the identifiers arrive in nondecreasing
order (as the Telegram getUpdates API delivers them) this equals one plus
the maximum identifier. -/
theorem claimC1 (off : Int) (u : Update) (us : List Update) :
    (Processor.Fetch off (Except.ok (u :: us))).2 = lastUpdateID u us + 1
    ∧ (List.Chain' (fun a b => a.ID ≤ b.ID) (u :: us) →
        lastUpdateID u us = maxUpdateID u us) :=
  ⟨rfl, lastUpdateID_eq_max us u⟩

/-- Witness for C1 at a concrete sorted input. -/
theorem claimC1_witness :
    (Processor.Fetch 0 (Except.ok [{ ID := 1, Message := none },
        { ID := 4, Message := none }])).2
      = lastUpdateID { ID := 1, Message := none } [{ ID := 4, Message := none }] + 1
    ∧ lastUpdateID { ID := 1, Message := none } [{ ID := 4, Message := none }]
      = maxUpdateID { ID := 1, Message := none } [{ ID := 4, Message := none }] := by
  have h := claimC1 0 { ID := 1, Message := none } [{ ID := 4, Message := none }]
  refine ⟨h.1, h.2 ?_⟩
  exact List.chain'_cons.2 ⟨by decide, List.chain'_singleton _⟩

/-- Counterexample to C1 as stated: when the upstream returns updates out
of order (IDs 5 then 3), the cursor becomes 4, not max+1 = 6. -/
theorem claimC1_counterexample :
    (Processor.Fetch 0 (Except.ok [{ ID := 5, Message := none },
        { ID := 3, Message := none }])).2 = 4
    ∧ maxUpdateID { ID := 5, Message := none } [{ ID := 3, Message := none }] + 1 = 6
    ∧ (4 : Int) ≠ 6 := by
  refine ⟨rfl, by decide, by decide⟩

/-- Claim C9 (corrected). The cursor starts at 0; an erroring fetch and an
empty fetch leave it unchanged; and a successful non-empty fetch strictly
increases it provided every returned update ID is at least the requested
offset (the getUpdates contract). For arbitrary upstream identifiers it
can decrease (see the counterexample). -/
theorem claimC9 :
    Processor.initialOffset = 0
    ∧ (∀ (off : Int) (err : String), (Processor.Fetch off (Except.error err)).2 = off)
    ∧ (∀ off : Int, (Processor.Fetch off (Except.ok [])).2 = off)
    ∧ (∀ (off : Int) (u : Update) (us : List Update),
        (∀ v ∈ u :: us, off ≤ v.ID) →
        off < (Processor.Fetch off (Except.ok (u :: us))).2) := by
  refine ⟨rfl, fun _ _ => rfl, fun _ => rfl, ?_⟩
  intro off u us h
  rcases lastUpdateID_mem us u with ⟨v, hv, hid⟩
  have hle : off ≤ v.ID := h v hv
  show off < lastUpdateID u us + 1
  omega

/-- Witness for C9 at a concrete input. -/
theorem claimC9_witness :
    (0 : Int) < (Processor.Fetch 0 (Except.ok [{ ID := 2, Message := none }])).2 :=
  claimC9.2.2.2 0 { ID := 2, Message := none } [] (by decide)

/-- Counterexample to C9 as stated: from offset 11, a fetch returning the
single update ID 3 moves the cursor down to 4. -/
theorem claimC9_counterexample :
    (Processor.Fetch 11 (Except.ok [{ ID := 3, Message := none }])).2 = 4
    ∧ (4 : Int) < 11 := by
  refine ⟨rfl, by decide⟩

/-- Claim C4. In both poll loops, every item of a batch is dispatched in
order regardless of per-item processing failures (a failure on item K
does not prevent items K+1..N from being dispatched), and exactly the
failing items produce a log line (no retry of a failed item). -/
theorem claimC4 :
    (∀ (p : Event → Except String Unit) (evs : List Event),
        (handleEvents p evs).1 = evs
        ∧ (handleEvents p evs).2.length =
            (List.filter (fun ev => isError (p ev)) evs).length)
    ∧ (∀ (q : Message → Except String Unit) (msgs : List Message),
        (handleMessages q msgs).1 = msgs
        ∧ (handleMessages q msgs).2.length =
            (List.filter (fun msg => isError (q msg)) msgs).length) := by
  constructor
  · intro p evs
    induction evs with
    | nil => exact ⟨rfl, rfl⟩
    | cons ev rest ih =>
        cases hp : p ev with
        | ok u =>
            cases u
            simp [handleEvents, hp, List.filter_cons, isError, ih.1, ih.2]
        | error err =>
            simp [handleEvents, hp, List.filter_cons, isError, ih.1, ih.2]
  · intro q msgs
    induction msgs with
    | nil => exact ⟨rfl, rfl⟩
    | cons msg rest ih =>
        cases hq : q msg with
        | ok u =>
            cases u
            simp [handleMessages, hq, List.filter_cons, isError, ih.1, ih.2]
        | error err =>
            simp [handleMessages, hq, List.filter_cons, isError, ih.1, ih.2]

/-- Claim C2 (corrected). An empty successful fetch leaves the cursor
unchanged, makes the cursor loop sleep exactly 1 second and the window
loop exactly 10 seconds, and never adds or refreshes SeenCache entries:
after an empty window fetch the seen map is exactly the swept version of
the input map (so the sweep may still purge expired entries; see the
counterexample). -/
theorem claimC2 :
    (∀ off : Int, Processor.Fetch off (Except.ok []) = (Except.ok [], off))
    ∧ eventConsumerIteration (Except.ok []) = LoopOutcome.sleptSeconds 1
    ∧ sourceConsumerIteration (Except.ok []) = LoopOutcome.sleptSeconds 10
    ∧ (∀ (s : Source) (now : Int) (seen : Seen) (doc : List RawMessage),
        (Source.fetchOnce s now seen doc).2 = [] →
        (Source.fetchOnce s now seen doc).1 = sweepSeen s.expiry now seen) := by
  refine ⟨fun off => rfl, rfl, rfl, ?_⟩
  intro s now seen doc h
  have h2 : (Source.filterFrom s now seen [] doc).2 = [] := h
  have h3 := filterFrom_seen_of_no_new s now doc seen [] h2
  show sweepSeen s.expiry now (Source.filterFrom s now seen [] doc).1 = sweepSeen s.expiry now seen
  rw [h3]

/-- Witness for C2 at a concrete empty fetch. -/
theorem claimC2_witness :
    (Source.fetchOnce srcC2 0 [] []).1 = sweepSeen srcC2.expiry 0 [] :=
  claimC2.2.2.2 srcC2 0 [] [] rfl

/-- Counterexample to C2 as stated: a successful EMPTY fetch still mutates
the SeenCache, because the post-fetch sweep deletes the expired entry
("a", 0) at now = 90001 (expiry 86400). -/
theorem claimC2_counterexample :
    (Source.Fetch srcC2 90001 [("a", 0)] (Except.ok [])).2 = Except.ok []
    ∧ lookupSeen (Source.Fetch srcC2 90001 [("a", 0)] (Except.ok [])).1 "a" = none
    ∧ lookupSeen [("a", (0 : Int))] "a" = some 0 := by
  refine ⟨rfl, by decide, by decide⟩

end TgAlarm

namespace TgAlarm

theorem fetchOnce_blocked (s : Source) (now : Int) (id : String) (T : Int)
    (hy : now - T ≤ s.expiry) (seen : Seen) (doc : List RawMessage)
    (hl : lookupSeen seen id = some T) :
    lookupSeen (Source.fetchOnce s now seen doc).1 id = some T ∧
      id ∉ List.map Message.ID (Source.fetchOnce s now seen doc).2 := by
  have hfil := filterFrom_blocked s now id T hy doc seen [] hl (by simp)
  constructor
  · show lookupSeen (sweepSeen s.expiry now (Source.filterFrom s now seen [] doc).1) id = some T
    exact lookupSeen_sweepSeen_of_young s.expiry now id T hy _ hfil.1
  · exact hfil.2

theorem fetchOnce_records (s : Source) (now : Int) (id : String) (hexp : 0 ≤ s.expiry)
    (seen : Seen) (doc : List RawMessage)
    (hacc : id ∈ List.map Message.ID (Source.fetchOnce s now seen doc).2) :
    lookupSeen (Source.fetchOnce s now seen doc).1 id = some now := by
  have h1 : lookupSeen (Source.filterFrom s now seen [] doc).1 id = some now :=
    filterFrom_records s now id doc seen [] (by simp) hacc
  show lookupSeen (sweepSeen s.expiry now (Source.filterFrom s now seen [] doc).1) id = some now
  exact lookupSeen_sweepSeen_of_young s.expiry now id now (by omega) _ h1

theorem runWindow_not_reaccepted (s : Source) (id : String) (T : Int) :
    ∀ (fetches : List (Int × List RawMessage)) (seen : Seen),
      lookupSeen seen id = some T →
      (∀ f ∈ fetches, f.1 - T ≤ s.expiry) →
      ∀ out ∈ runWindow s seen fetches, id ∉ List.map Message.ID out := by
  intro fetches
  induction fetches with
  | nil =>
      intro seen _ _ out hout
      simp [runWindow] at hout
  | cons f rest ih =>
      intro seen hl hts out hout
      have hf : f.1 - T ≤ s.expiry := hts f (List.mem_cons_self f rest)
      have hstep := fetchOnce_blocked s f.1 id T hf seen f.2 hl
      simp only [runWindow, List.mem_cons] at hout
      rcases hout with hout | hout
      · rw [hout]
        exact hstep.2
      · exact ih _ hstep.1 (fun g hg => hts g (List.mem_cons_of_mem f hg)) out hout

/-- Claim C3. Once an item ID is accepted by a window-consumer fetch at
time T, no fetch whose time lies strictly before T plus the retention
window re-accepts that ID (first conjunct); after the window has elapsed
the ID can be accepted again (second conjunct: concrete run in which the
same candidate is accepted a second time 86490 seconds later). -/
theorem claimC3 :
    (∀ (s : Source) (now : Int) (seen : Seen) (doc : List RawMessage)
        (rest : List (Int × List RawMessage)) (id : String),
        0 ≤ s.expiry →
        id ∈ List.map Message.ID (Source.fetchOnce s now seen doc).2 →
        (∀ f ∈ rest, f.1 < now + s.expiry) →
        ∀ out ∈ runWindow s (Source.fetchOnce s now seen doc).1 rest,
          id ∉ List.map Message.ID out)
    ∧ List.map Message.ID
        (Source.fetchOnce srcC3 86500 (Source.fetchOnce srcC3 10 [] [candC3]).1 [candC3]).2
        = ["p1"] := by
  constructor
  · intro s now seen doc rest id hexp hacc hts out hout
    have hrec := fetchOnce_records s now id hexp seen doc hacc
    exact runWindow_not_reaccepted s id now rest _ hrec
      (fun f hf => by have := hts f hf; omega) out hout
  · decide

/-- Witness for C3: the ID accepted at time 10 is not re-accepted by a
fetch at time 20 (well inside the 86400 second window). -/
theorem claimC3_witness :
    "p1" ∉ List.map Message.ID
      (Source.fetchOnce srcC3 20 (Source.fetchOnce srcC3 10 [] [candC3]).1 [candC3]).2 :=
  claimC3.1 srcC3 10 [] [candC3] [(20, [candC3])] "p1" (by decide) (by decide)
    (by decide) _ (by simp [runWindow])

theorem SeenWF_filterFrom (s : Source) (now : Int) :
    ∀ (doc : List RawMessage) (seen : Seen) (acc : List Message),
      SeenWF seen → SeenWF (Source.filterFrom s now seen acc doc).1 := by
  intro doc
  induction doc with
  | nil =>
      intro seen acc hw
      rw [filterFrom_nil]
      exact hw
  | cons c rest ih =>
      intro seen acc hw
      cases hc : accepts s now seen c with
      | false =>
          rw [filterFrom_cons_neg s now seen acc c rest hc]
          exact ih seen acc hw
      | true =>
          rw [filterFrom_cons_pos s now seen acc c rest hc]
          exact ih _ _ (SeenWF_insertSeen seen c.dataPost now hw)

/-- Claim C7. After a fetch, the swept seen map is exactly the post-filter
map restricted to entries not strictly older than the retention window:
every entry strictly older than the window (related to this fetch or not)
is gone, every younger entry survives with its timestamp intact. -/
theorem claimC7 (s : Source) (now : Int) (seen : Seen) (doc : List RawMessage)
    (hw : SeenWF seen) (id : String) :
    lookupSeen (Source.fetchOnce s now seen doc).1 id =
      match lookupSeen (Source.filter s now seen doc).1 id with
      | none => none
      | some T => if now - T > s.expiry then none else some T := by
  have hw1 : SeenWF (Source.filter s now seen doc).1 :=
    SeenWF_filterFrom s now doc seen [] hw
  show lookupSeen (sweepSeen s.expiry now (Source.filter s now seen doc).1) id = _
  exact lookupSeen_sweepSeen_eq s.expiry now id _ hw1

/-- Witness for C7: the expired unrelated entry ("old", 0) is purged by an
empty fetch at time 90001, matching the swept description. -/
theorem claimC7_witness :
    lookupSeen (Source.fetchOnce srcC7 90001 [("old", 0)] []).1 "old" =
      match lookupSeen (Source.filter srcC7 90001 [("old", 0)] []).1 "old" with
      | none => none
      | some T => if 90001 - T > srcC7.expiry then none else some T :=
  claimC7 srcC7 90001 [("old", 0)] [] (by simp [SeenWF]) "old"

/-- Claim C8. A candidate all of whose occurrences in the document carry a
missing/unparsable timestamp or a timestamp strictly before the start
time is never part of the fetch result, whatever its text, length or
seen-cache status. -/
theorem claimC8 (s : Source) (now : Int) (seen : Seen) (doc : List RawMessage) (id : String)
    (h : ∀ c ∈ doc, c.dataPost = id →
        c.datetime = none ∨ ∃ t, c.datetime = some t ∧ t < s.startTime) :
    id ∉ List.map Message.ID (Source.fetchOnce s now seen doc).2 := by
  intro hmem
  have hmem2 : id ∈ List.map Message.ID (Source.filterFrom s now seen [] doc).2 := hmem
  rcases filterFrom_ids_time_valid s now id doc seen [] hmem2 with h1 | ⟨c, hc, hcid, t, hdt, hts⟩
  · simp at h1
  · rcases h c hc hcid with hnone | ⟨t2, hdt2, hts2⟩
    · rw [hdt] at hnone
      cases hnone
    · rw [hdt] at hdt2
      have ht : t = t2 := Option.some.inj hdt2
      exact hts (ht ▸ hts2)

/-- Witness for C8: the candidate with timestamp -5 (before start time 0)
is not emitted even though it matches and is unseen. -/
theorem claimC8_witness :
    "x" ∉ List.map Message.ID (Source.fetchOnce srcC8 0 [] [candC8]).2 :=
  claimC8 srcC8 0 [] [candC8] "x" (by
    intro c hc hcid
    simp only [List.mem_singleton] at hc
    rw [hc]
    exact Or.inr ⟨-5, rfl, by decide⟩)

/-- Claim C10. Within a single fetch the accepted messages carry pairwise
distinct identifiers: accepting a candidate records its ID at the fetch
time, which blocks every later candidate of the same document carrying
that ID (the expiry being nonnegative, as the 24 hour default is). -/
theorem claimC10 (s : Source) (now : Int) (seen : Seen) (doc : List RawMessage)
    (hexp : 0 ≤ s.expiry) :
    (List.map Message.ID (Source.filter s now seen doc).2).Nodup :=
  filterFrom_ids_nodup s now hexp doc seen [] (by simp) (by simp)

/-- Witness for C10: a document containing the same candidate twice yields
the message once, with nodup IDs. -/
theorem claimC10_witness :
    (List.map Message.ID (Source.filter srcC10 5 [] [candC10, candC10]).2).Nodup :=
  claimC10 srcC10 5 [] [candC10, candC10] (by decide)

end TgAlarm

namespace TgAlarm

set_option maxRecDepth 8000

/-- Claim C5. The length check of the window filter uses the Unicode
code-point count, strictly below 150: under the other acceptance
conditions (valid timestamp, matching pattern, empty seen map) a
candidate is accepted iff its rune count is below 150 (first conjunct);
concretely, a 149-character string of two-byte characters (298 UTF-8
bytes, well above 150) is accepted and a 150-character string is
rejected. -/
theorem claimC5 :
    (∀ (s : Source) (now : Int) (c : RawMessage) (t : Int),
        c.datetime = some t → ¬ t < s.startTime →
        s.searchMatch (messageTextOf c) = true →
        ((Source.filter s now [] [c]).2 ≠ [] ↔
          runeCountInString (messageTextOf c) < 150))
    ∧ runeCountInString strC5a = 149
    ∧ 150 < utf8ByteLen strC5a
    ∧ (Source.filter srcC5 0 [] [candC5a]).2 ≠ []
    ∧ runeCountInString strC5b = 150
    ∧ (Source.filter srcC5 0 [] [candC5b]).2 = [] := by
  refine ⟨?_, by decide, by decide, by decide, by decide, by decide⟩
  intro s now c t hdt hst hm
  by_cases hlen : runeCountInString (messageTextOf c) < 150
  · have hacc : accepts s now [] c = true := by
      unfold accepts
      rw [hdt]
      simp [hst, hm, hlen, lookupSeen]
    show (Source.filterFrom s now [] [] [c]).2 ≠ [] ↔ _
    rw [filterFrom_cons_pos s now [] [] c [] hacc, filterFrom_nil]
    simp [hlen]
  · have hacc : accepts s now [] c = false := by
      unfold accepts
      rw [hdt]
      simp [hst, hm, hlen]
    show (Source.filterFrom s now [] [] [c]).2 ≠ [] ↔ _
    rw [filterFrom_cons_neg s now [] [] c [] hacc, filterFrom_nil]
    simp [hlen]

/-- Witness for C5 applied at the concrete 149-character candidate. -/
theorem claimC5_witness :
    ((Source.filter srcC5 0 [] [candC5a]).2 ≠ [] ↔
      runeCountInString (messageTextOf candC5a) < 150) :=
  claimC5.1 srcC5 0 candC5a 5 rfl (by decide) rfl

/-- Claim C6. The pattern is matched against the reply-resolved,
pre-cleaning text, and cleaning (strip phrases, then trim) is applied
only to the accepted text (first conjunct: for a fresh candidate with a
valid timestamp, the result is governed by the matcher applied to the
RAW text and the emitted text is the cleaned one). The reply marker makes
the resolved text come from the reply block (second conjunct), and with
strip-phrases ["[AD] "] and pattern "ALERT", the input text
"[AD] ALERT: fire" is emitted as "ALERT: fire" (third conjunct). -/
theorem claimC6 :
    (∀ (s : Source) (now : Int) (seen : Seen) (c : RawMessage) (t : Int),
        c.datetime = some t → ¬ t < s.startTime →
        lookupSeen seen c.dataPost = none →
        (Source.filter s now seen [c]).2 =
          (if s.searchMatch (messageTextOf c)
              && decide (runeCountInString (messageTextOf c) < 150)
           then [{ ID := c.dataPost, Text := Source.cleanMessage s (messageTextOf c) }]
           else []))
    ∧ messageTextOf candC6r = "resolved"
    ∧ (Source.filter srcC6 10 [] [candC6]).2 = [{ ID := "p6", Text := "ALERT: fire" }] := by
  refine ⟨?_, rfl, by decide⟩
  intro s now seen c t hdt hst hl
  cases hm : (s.searchMatch (messageTextOf c)
      && decide (runeCountInString (messageTextOf c) < 150)) with
  | true =>
      have hacc : accepts s now seen c = true := by
        unfold accepts
        rw [hdt]
        simp [hst, hm, hl]
      show (Source.filterFrom s now seen [] [c]).2 = _
      rw [filterFrom_cons_pos s now seen [] c [] hacc, filterFrom_nil]
      simp
  | false =>
      have hacc : accepts s now seen c = false := by
        unfold accepts
        rw [hdt]
        simp [hst, hm]
      show (Source.filterFrom s now seen [] [c]).2 = _
      rw [filterFrom_cons_neg s now seen [] c [] hacc, filterFrom_nil]
      simp

/-- Witness for C6 applied at the concrete "[AD] ALERT: fire" candidate. -/
theorem claimC6_witness :
    (Source.filter srcC6 10 [] [candC6]).2 =
      (if srcC6.searchMatch (messageTextOf candC6)
          && decide (runeCountInString (messageTextOf candC6) < 150)
       then [{ ID := candC6.dataPost, Text := Source.cleanMessage srcC6 (messageTextOf candC6) }]
       else []) :=
  claimC6.1 srcC6 10 [] candC6 3 rfl (by decide) rfl

end TgAlarm
